import Mathlib

/-!
Verification of the voxblox block-hashed voxel storage layer
(`voxblox/core/layer.h`) against its specification.

Shallow embedding conventions:
* `FloatingPoint` values are modelled as exact rationals `ℚ` (idealised
  real arithmetic, no rounding).
* The block hash map `BlockHashMap` is modelled as an association list
  `List (BlockIndex × Block)`; `std::unordered_map::find`, `::insert`
  (which never overwrites an existing key) and `::erase` become
  `findBlock`, a guarded cons, and `eraseBlock`.
* `LOG(FATAL)` (process abort) is modelled as the `.error` branch of an
  `Except Unit` result; returning a null pointer is modelled as `none`.
-/

namespace Voxblox

/-- `FloatingPoint` from `common.h`, modelled as exact rationals. -/
abbrev FloatingPoint := ℚ

/-- A world-coordinate 3D point (`Point` in `common.h`). -/
abbrev Point := ℚ × ℚ × ℚ

/-- `BlockIndex`: 3-component signed integer block coordinates. -/
abbrev BlockIndex := ℤ × ℤ × ℤ

/-- Componentwise scaling of a point by a scalar
(`coords * block_size_inv_` in `computeBlockIndexFromCoordinates`). -/
def scalePoint (p : Point) (s : ℚ) : Point :=
  (p.1 * s, p.2.1 * s, p.2.2 * s)

/-- Modelled from the spec: `floorVectorAndDowncast` (declared in
`common.h`, body not in the sources) takes the componentwise floor of a
real vector and downcasts to integer indices — floor, not truncation. -/
def floorVectorAndDowncast (p : Point) : BlockIndex :=
  (⌊p.1⌋, ⌊p.2.1⌋, ⌊p.2.2⌋)

/-- Modelled from the spec: the Tsdf voxel payload carried by a block
(`voxel.h` is not in the sources): a signed distance estimate and an
accumulated observation weight.  Color and the observed flag are
omitted; the claims under verification concern only `(d, w)`. -/
structure TsdfVoxel where
  distance : ℚ
  weight : ℚ
deriving DecidableEq

/-- A default (unobserved, zero-weight) voxel. -/
def TsdfVoxel.default : TsdfVoxel := ⟨0, 0⟩

/-- Modelled from the spec: `Block` (`block.h` is not in the sources)
owns a fixed-length array of `voxels_per_side³` voxels and records its
geometry and world origin. -/
structure Block where
  voxels_per_side : ℕ
  voxel_size : ℚ
  origin : Point
  voxels : List TsdfVoxel
deriving DecidableEq

/-- Modelled from the spec: the `Block` constructor allocates
`voxels_per_side³` default voxels. -/
def Block.new (n : ℕ) (vs : ℚ) (origin : Point) : Block :=
  ⟨n, vs, origin, List.replicate (n ^ 3) TsdfVoxel.default⟩

/-- The block hash map, as an association list. -/
abbrev BlockMap := List (BlockIndex × Block)

/-- `block_map_.find(index)`: the first entry with the given key. -/
def findBlock : BlockMap → BlockIndex → Option Block
  | [], _ => none
  | (k, v) :: t, i => if k = i then some v else findBlock t i

/-- `block_map_.erase(index)`: drop the (unique, under the map
invariant) entry with the given key; no-op when absent. -/
def eraseBlock : BlockMap → BlockIndex → BlockMap
  | [], _ => []
  | (k, v) :: t, i => if k = i then t else (k, v) :: eraseBlock t i

/-- World origin of the block at a given index:
`index.cast<FloatingPoint>() * block_size_`. -/
def blockOrigin (i : BlockIndex) (bs : ℚ) : Point :=
  ((i.1 : ℚ) * bs, (i.2.1 : ℚ) * bs, (i.2.2 : ℚ) * bs)

/-- The `Layer` storage engine: fixed geometry plus the block map. -/
structure Layer where
  voxel_size : ℚ
  voxels_per_side : ℕ
  block_size : ℚ
  block_size_inv : ℚ
  block_map : BlockMap
deriving DecidableEq

/-- The `Layer(voxel_size, voxels_per_side)` constructor:
`block_size_ = voxel_size_ * voxels_per_side_`;
`block_size_inv_ = 1.0 / block_size_`; empty map. -/
def Layer.init (voxel_size : ℚ) (voxels_per_side : ℕ) : Layer :=
  { voxel_size := voxel_size
    voxels_per_side := voxels_per_side
    block_size := voxel_size * voxels_per_side
    block_size_inv := 1 / (voxel_size * voxels_per_side)
    block_map := [] }

/-- `getNumberOfAllocatedBlocks()`: size of the block map. -/
def Layer.getNumberOfAllocatedBlocks (L : Layer) : ℕ :=
  L.block_map.length

/-- `computeBlockIndexFromCoordinates(coords)`:
`floorVectorAndDowncast(coords * block_size_inv_)`. -/
def Layer.computeBlockIndexFromCoordinates (L : Layer) (coords : Point) :
    BlockIndex :=
  floorVectorAndDowncast (scalePoint coords L.block_size_inv)

/-- `getBlockByIndex(index)`: dereference the stored block when present;
otherwise `LOG(FATAL)` aborts, modelled as the `.error` branch. -/
def Layer.getBlockByIndex (L : Layer) (index : BlockIndex) :
    Except Unit Block :=
  match findBlock L.block_map index with
  | some b => .ok b
  | none => .error ()

/-- `getBlockPtrByIndex(index)`: the stored block when present, a null
pointer (`none`) when absent — a warning is logged but execution
continues. -/
def Layer.getBlockPtrByIndex (L : Layer) (index : BlockIndex) :
    Option Block :=
  match findBlock L.block_map index with
  | some b => some b
  | none => none

/-- Result of `allocateNewBlock`: the block at the key after the
`insert` call, the updated layer, and `insert_status.second` (whether a
new entry was actually inserted; `DCHECK`ed to be `true`). -/
structure AllocResult where
  block : Block
  layer : Layer
  inserted : Bool
deriving DecidableEq

/-- `allocateNewBlock(index)`: `block_map_.insert({index, new Block(
voxels_per_side_, voxel_size_, index.cast<FloatingPoint>() *
block_size_)})`.  `std::unordered_map::insert` never overwrites: with
the key already present it returns the existing entry and
`insert_status.second = false` (tripping the `DCHECK`). -/
def Layer.allocateNewBlock (L : Layer) (index : BlockIndex) : AllocResult :=
  match findBlock L.block_map index with
  | some b => ⟨b, L, false⟩
  | none =>
    let b := Block.new L.voxels_per_side L.voxel_size
      (blockOrigin index L.block_size)
    ⟨b, { L with block_map := (index, b) :: L.block_map }, true⟩

/-- `allocateBlockPtrByIndex(index)`: the existing block if present,
otherwise `allocateNewBlock(index)`. -/
def Layer.allocateBlockPtrByIndex (L : Layer) (index : BlockIndex) :
    Block × Layer :=
  match findBlock L.block_map index with
  | some b => (b, L)
  | none =>
    let r := L.allocateNewBlock index
    (r.block, r.layer)

/-- `removeBlock(index)`: `block_map_.erase(index)`. -/
def Layer.removeBlock (L : Layer) (index : BlockIndex) : Layer :=
  { L with block_map := eraseBlock L.block_map index }

/-- `getBlockPtrByCoordinates(coords)`. -/
def Layer.getBlockPtrByCoordinates (L : Layer) (coords : Point) :
    Option Block :=
  L.getBlockPtrByIndex (L.computeBlockIndexFromCoordinates coords)

/-- `allocateBlockPtrByCoordinates(coords)`. -/
def Layer.allocateBlockPtrByCoordinates (L : Layer) (coords : Point) :
    Block × Layer :=
  L.allocateBlockPtrByIndex (L.computeBlockIndexFromCoordinates coords)

/-- `allocateNewBlockByCoordinates(coords)`. -/
def Layer.allocateNewBlockByCoordinates (L : Layer) (coords : Point) :
    AllocResult :=
  L.allocateNewBlock (L.computeBlockIndexFromCoordinates coords)

/-- `removeBlockByCoordinates(coords)`:
`block_map_.erase(computeBlockIndexFromCoordinates(coords))`. -/
def Layer.removeBlockByCoordinates (L : Layer) (coords : Point) : Layer :=
  { L with
    block_map :=
      eraseBlock L.block_map (L.computeBlockIndexFromCoordinates coords) }

/-- Layer invariant (a): at most one `Block` per `BlockIndex` — the
keys of the block map are pairwise distinct. -/
def Layer.wf (L : Layer) : Prop :=
  (L.block_map.map Prod.fst).Nodup

instance (L : Layer) : Decidable L.wf := by
  unfold Layer.wf; infer_instance

/-- Layer invariant (b)/(c): the recorded `block_size` is
`voxel_size * voxels_per_side` and every stored block was constructed
with this layer's geometry and the origin of its own index.  Every
block produced by `allocateNewBlock` satisfies this. -/
def Layer.wfGeom (L : Layer) : Prop :=
  L.block_size = L.voxel_size * L.voxels_per_side ∧
    ∀ kv ∈ L.block_map,
      (kv.2).voxels_per_side = L.voxels_per_side ∧
      (kv.2).voxel_size = L.voxel_size ∧
      (kv.2).origin = blockOrigin kv.1 L.block_size

instance (L : Layer) : Decidable L.wfGeom := by
  unfold Layer.wfGeom; infer_instance

/-! ### Persistence codec (modelled from the spec)

`getProto` / `loadBlocksFromFile` are declared in `layer.h` but their
bodies (`layer_inl.h`) are not in the sources; they are modelled from
the spec: a header carrying the geometry plus one record per block
(block index + raw voxel payload), decoding validated by
`isCompatible`, with four merge policies.  The model holds a single
voxel type, so the voxel-type tag always matches and is omitted. -/

/-- One persisted block record: block index plus voxel payload. -/
structure BlockProto where
  index : BlockIndex
  voxels : List TsdfVoxel
deriving DecidableEq

/-- A persisted layer: geometry header plus block records. -/
structure LayerProto where
  voxel_size : ℚ
  voxels_per_side : ℕ
  blocks : List BlockProto
deriving DecidableEq

/-- `getProto(proto)`: encode the geometry header and every allocated
block as an (index, voxel payload) record. -/
def Layer.getProto (L : Layer) : LayerProto :=
  { voxel_size := L.voxel_size
    voxels_per_side := L.voxels_per_side
    blocks := L.block_map.map fun kv => ⟨kv.1, (kv.2).voxels⟩ }

/-- `isCompatible(layer_proto)`: geometry of the encoding matches this
layer's geometry. -/
def Layer.isCompatible (L : Layer) (proto : LayerProto) : Bool :=
  decide (L.voxel_size = proto.voxel_size) &&
    decide (L.voxels_per_side = proto.voxels_per_side)

/-- `Layer::BlockMergingStrategy`. -/
inductive BlockMergingStrategy where
  | kProhibit
  | kReplace
  | kDiscard
  | kMerge
deriving DecidableEq

/-- Modelled from the spec: the weighted-merge update rule of §4.5,
without the truncation clamp (the codec has no truncation parameter;
the spec's Merge-policy scenario `(0.1,1) ⊕ (-0.1,1) = (0.0,2)` is the
plain weighted average). -/
def mergeVoxelData (v incoming : TsdfVoxel) : TsdfVoxel :=
  ⟨(v.distance * v.weight + incoming.distance * incoming.weight) /
      (v.weight + incoming.weight),
    v.weight + incoming.weight⟩

/-- Rebuild a block from a persisted record using the target layer's
fixed geometry (origin recomputed from the index, as in
`allocateNewBlock`). -/
def blockFromProto (L : Layer) (r : BlockProto) : Block :=
  ⟨L.voxels_per_side, L.voxel_size, blockOrigin r.index L.block_size,
    r.voxels⟩

/-- Apply one incoming block record to the target layer under a merge
policy.  `kProhibit` reaches here only collision-free (collisions abort
the whole load beforehand), so it inserts like `kReplace`. -/
def applyBlockProto (strategy : BlockMergingStrategy) (L : Layer)
    (r : BlockProto) : Layer :=
  match strategy with
  | .kDiscard =>
    match findBlock L.block_map r.index with
    | some _ => L
    | none =>
      { L with block_map := (r.index, blockFromProto L r) :: L.block_map }
  | .kMerge =>
    match findBlock L.block_map r.index with
    | some b =>
      let merged : Block :=
        { b with voxels := List.zipWith mergeVoxelData b.voxels r.voxels }
      { L with
        block_map := (r.index, merged) :: eraseBlock L.block_map r.index }
    | none =>
      { L with block_map := (r.index, blockFromProto L r) :: L.block_map }
  | _ =>
    { L with
      block_map :=
        (r.index, blockFromProto L r) :: eraseBlock L.block_map r.index }

/-- `loadBlocksFromFile(file, strategy)`, modelled from the spec on the
already-decoded `LayerProto`: a geometry mismatch refuses to load; under
`kProhibit` any index collision aborts the whole load with no state
change (`none`); otherwise every record is applied under the policy. -/
def Layer.loadBlocksProto (L : Layer) (proto : LayerProto)
    (strategy : BlockMergingStrategy) : Option Layer :=
  if L.isCompatible proto = false then none
  else if strategy = .kProhibit &&
      proto.blocks.any (fun r => (findBlock L.block_map r.index).isSome) then
    none
  else some (proto.blocks.foldl (applyBlockProto strategy) L)

/-! ### TSDF weighted-merge update rule (modelled from the spec)

The TSDF integrator (`tsdf_integrator.h/cc`) is not in the sources; the
voxel update rule is modelled from the spec:
`w_new = w₁ + w₂`; `d_new = clamp((d₁·w₁ + d₂·w₂) / w_new, -τ, +τ)`. -/

/-- Clamp a value to `[lo, hi]`. -/
def clampQ (x lo hi : ℚ) : ℚ := max lo (min x hi)

/-- Modelled from the spec: apply one observation `(d, w)` to a voxel
under truncation distance `τ`. -/
def updateTsdfVoxel (τ : ℚ) (v : TsdfVoxel) (d w : ℚ) : TsdfVoxel :=
  ⟨clampQ ((v.distance * v.weight + d * w) / (v.weight + w)) (-τ) τ,
    v.weight + w⟩

/-! ### Helper lemmas about the block map -/

theorem findBlock_eq_none_iff (m : BlockMap) (i : BlockIndex) :
    findBlock m i = none ↔ i ∉ m.map Prod.fst := by
  induction m with
  | nil => simp [findBlock]
  | cons kv t ih =>
    obtain ⟨k, v⟩ := kv
    by_cases h : k = i
    · subst h
      simp [findBlock]
    · simp [findBlock, h, ih, Ne.symm h]

theorem findBlock_eraseBlock_ne (m : BlockMap) (i j : BlockIndex)
    (h : j ≠ i) : findBlock (eraseBlock m i) j = findBlock m j := by
  induction m with
  | nil => simp [eraseBlock]
  | cons kv t ih =>
    obtain ⟨k, v⟩ := kv
    by_cases hk : k = i
    · subst hk
      simp [eraseBlock, findBlock, Ne.symm h]
    · by_cases hkj : k = j
      · subst hkj
        simp [eraseBlock, hk, findBlock]
      · simp [eraseBlock, hk, findBlock, hkj, ih]

theorem eraseBlock_of_findBlock_none (m : BlockMap) (i : BlockIndex)
    (h : findBlock m i = none) : eraseBlock m i = m := by
  induction m with
  | nil => simp [eraseBlock]
  | cons kv t ih =>
    obtain ⟨k, v⟩ := kv
    by_cases hk : k = i
    · subst hk
      simp [findBlock] at h
    · simp [findBlock, hk] at h
      simp [eraseBlock, hk, ih h]

theorem length_eraseBlock_of_present (m : BlockMap) (i : BlockIndex)
    (h : (findBlock m i).isSome = true) :
    (eraseBlock m i).length + 1 = m.length := by
  induction m with
  | nil => simp [findBlock] at h
  | cons kv t ih =>
    obtain ⟨k, v⟩ := kv
    by_cases hk : k = i
    · subst hk
      simp [eraseBlock]
    · simp [findBlock, hk] at h
      simp [eraseBlock, hk, ih h]

theorem eraseBlock_sublist (m : BlockMap) (i : BlockIndex) :
    (eraseBlock m i).Sublist m := by
  induction m with
  | nil => simp [eraseBlock]
  | cons kv t ih =>
    obtain ⟨k, v⟩ := kv
    by_cases hk : k = i
    · subst hk
      rw [eraseBlock, if_pos rfl]
      exact List.sublist_cons_self _ _
    · rw [eraseBlock, if_neg hk]
      exact ih.cons₂ _

theorem nodup_keys_eraseBlock (m : BlockMap) (i : BlockIndex)
    (h : (m.map Prod.fst).Nodup) :
    ((eraseBlock m i).map Prod.fst).Nodup :=
  ((eraseBlock_sublist m i).map Prod.fst).nodup h

theorem findBlock_eraseBlock_self (m : BlockMap) (i : BlockIndex)
    (h : (m.map Prod.fst).Nodup) :
    findBlock (eraseBlock m i) i = none := by
  induction m with
  | nil => simp [eraseBlock, findBlock]
  | cons kv t ih =>
    obtain ⟨k, v⟩ := kv
    simp only [List.map_cons, List.nodup_cons] at h
    by_cases hk : k = i
    · subst hk
      rw [eraseBlock, if_pos rfl, findBlock_eq_none_iff]
      exact h.1
    · rw [eraseBlock, if_neg hk, findBlock, if_neg hk]
      exact ih h.2

/-! ### Claim theorems -/

/-- C1: for every world point `p`, `computeBlockIndexFromCoordinates p`
equals the exact componentwise floor of `p / block_size`; in
particular with `block_size = 1.6` (voxel size 0.1, 16 voxels per
side), `p = (-0.1, -0.1, -0.1)` maps to block index `(-1, -1, -1)`. -/
theorem computeBlockIndex_eq_floor_div (vs : ℚ) (n : ℕ) (p : Point) :
    (Layer.init vs n).computeBlockIndexFromCoordinates p =
      (⌊p.1 / (vs * n)⌋, ⌊p.2.1 / (vs * n)⌋, ⌊p.2.2 / (vs * n)⌋) ∧
    (Layer.init (1/10) 16).computeBlockIndexFromCoordinates
      (-1/10, -1/10, -1/10) = (-1, -1, -1) := by
  constructor
  · show (⌊p.1 * (1 / (vs * (n : ℚ)))⌋, ⌊p.2.1 * (1 / (vs * (n : ℚ)))⌋,
      ⌊p.2.2 * (1 / (vs * (n : ℚ)))⌋) = _
    rw [mul_one_div, mul_one_div, mul_one_div]
  · show (⌊(-1/10 : ℚ) * (1 / (1/10 * (16 : ℚ)))⌋,
      ⌊(-1/10 : ℚ) * (1 / (1/10 * (16 : ℚ)))⌋,
      ⌊(-1/10 : ℚ) * (1 / (1/10 * (16 : ℚ)))⌋) = (-1, -1, -1)
    norm_num

/-- C2: allocation is idempotent with respect to the block index: a
first call at an unallocated index inserts exactly one block (the
count grows by 1 and the returned block is stored at the index); at an
already-allocated index the call returns the stored block and leaves
the layer untouched; a subsequent call with the same index returns the
same block and the same layer. -/
theorem allocateBlockPtrByIndex_idempotent (L : Layer) (i : BlockIndex) :
    (findBlock L.block_map i = none →
      (L.allocateBlockPtrByIndex i).2.getNumberOfAllocatedBlocks =
        L.getNumberOfAllocatedBlocks + 1 ∧
      findBlock (L.allocateBlockPtrByIndex i).2.block_map i =
        some (L.allocateBlockPtrByIndex i).1) ∧
    (∀ b, findBlock L.block_map i = some b →
      L.allocateBlockPtrByIndex i = (b, L)) ∧
    (L.allocateBlockPtrByIndex i).2.allocateBlockPtrByIndex i =
      ((L.allocateBlockPtrByIndex i).1, (L.allocateBlockPtrByIndex i).2) := by
  refine ⟨?_, ?_, ?_⟩
  · intro h
    simp [Layer.allocateBlockPtrByIndex, h, Layer.allocateNewBlock,
      Layer.getNumberOfAllocatedBlocks, findBlock]
  · intro b h
    simp [Layer.allocateBlockPtrByIndex, h]
  · rcases hf : findBlock L.block_map i with _ | b
    · simp only [Layer.allocateBlockPtrByIndex, Layer.allocateNewBlock, hf]
      simp [Layer.allocateBlockPtrByIndex, findBlock]
    · simp [Layer.allocateBlockPtrByIndex, hf]

/-- C2 witness: on a fresh layer, allocating block `(0,0,0)` raises the
block count from 0 to 1 and stores the returned block at the index. -/
theorem allocateBlockPtrByIndex_idempotent_witness :
    ((Layer.init 1 1).allocateBlockPtrByIndex
        (0, 0, 0)).2.getNumberOfAllocatedBlocks =
      (Layer.init 1 1).getNumberOfAllocatedBlocks + 1 ∧
    findBlock ((Layer.init 1 1).allocateBlockPtrByIndex
        (0, 0, 0)).2.block_map (0, 0, 0) =
      some ((Layer.init 1 1).allocateBlockPtrByIndex (0, 0, 0)).1 :=
  (allocateBlockPtrByIndex_idempotent (Layer.init 1 1) (0, 0, 0)).1 rfl

/-- C4: `getBlockByIndex i` fails fatally (the `.error` branch modelling
`LOG(FATAL)`) whenever no block is allocated at `i`, and under the
precondition that a block is stored at `i` it returns exactly that
block, so the fatal branch is unreachable. -/
theorem getBlockByIndex_fatal_iff_absent (L : Layer) (i : BlockIndex) :
    (findBlock L.block_map i = none → L.getBlockByIndex i = .error ()) ∧
    (∀ b, findBlock L.block_map i = some b →
      L.getBlockByIndex i = .ok b) := by
  constructor
  · intro h
    simp [Layer.getBlockByIndex, h]
  · intro b h
    simp [Layer.getBlockByIndex, h]

/-- C4 witness: on a layer holding exactly block `(0,0,0)`, lookup of
`(1,0,0)` hits the fatal branch and lookup of `(0,0,0)` returns the
stored block. -/
theorem getBlockByIndex_fatal_iff_absent_witness :
    ((Layer.init 1 1).allocateBlockPtrByIndex (0, 0, 0)).2.getBlockByIndex
        (1, 0, 0) = .error () ∧
    ((Layer.init 1 1).allocateBlockPtrByIndex (0, 0, 0)).2.getBlockByIndex
        (0, 0, 0) =
      .ok ((Layer.init 1 1).allocateBlockPtrByIndex (0, 0, 0)).1 :=
  ⟨(getBlockByIndex_fatal_iff_absent
      ((Layer.init 1 1).allocateBlockPtrByIndex (0, 0, 0)).2 (1, 0, 0)).1
      rfl,
    (getBlockByIndex_fatal_iff_absent
      ((Layer.init 1 1).allocateBlockPtrByIndex (0, 0, 0)).2 (0, 0, 0)).2
      ((Layer.init 1 1).allocateBlockPtrByIndex (0, 0, 0)).1 rfl⟩

/-- C5: `getBlockPtrByIndex i` is a total lookup returning an `Option`:
the stored block when one is present, `none` (a null pointer, never an
abort) when absent. -/
theorem getBlockPtrByIndex_total_lookup (L : Layer) (i : BlockIndex) :
    (∀ b, findBlock L.block_map i = some b →
      L.getBlockPtrByIndex i = some b) ∧
    (findBlock L.block_map i = none → L.getBlockPtrByIndex i = none) := by
  constructor
  · intro b h
    simp [Layer.getBlockPtrByIndex, h]
  · intro h
    simp [Layer.getBlockPtrByIndex, h]

/-- C5 witness: on a layer holding exactly block `(0,0,0)`, pointer
lookup of `(0,0,0)` returns the stored block and pointer lookup of
`(1,0,0)` returns `none`. -/
theorem getBlockPtrByIndex_total_lookup_witness :
    ((Layer.init 1 1).allocateBlockPtrByIndex
        (0, 0, 0)).2.getBlockPtrByIndex (0, 0, 0) =
      some ((Layer.init 1 1).allocateBlockPtrByIndex (0, 0, 0)).1 ∧
    ((Layer.init 1 1).allocateBlockPtrByIndex
        (0, 0, 0)).2.getBlockPtrByIndex (1, 0, 0) = none :=
  ⟨(getBlockPtrByIndex_total_lookup
      ((Layer.init 1 1).allocateBlockPtrByIndex (0, 0, 0)).2 (0, 0, 0)).1
      ((Layer.init 1 1).allocateBlockPtrByIndex (0, 0, 0)).1 rfl,
    (getBlockPtrByIndex_total_lookup
      ((Layer.init 1 1).allocateBlockPtrByIndex (0, 0, 0)).2 (1, 0, 0)).2
      rfl⟩

/-- C3: the Layer holds at most one block per index: the key-uniqueness
invariant is preserved by allocation and removal (lookups do not
mutate), a direct `allocateNewBlock` at an absent index passes its
`DCHECK` (`insert_status.second = true`) — and through the public
lookup-or-insert contract of `allocateBlockPtrByIndex` this is the only
way `allocateNewBlock` is reached — while a direct double-allocation at
a present index never overwrites the stored block (the map is
unchanged) and trips the debug assertion
(`insert_status.second = false`). -/
theorem layer_at_most_one_block_per_index (L : Layer) (i : BlockIndex) :
    (L.wf → (L.allocateBlockPtrByIndex i).2.wf ∧ (L.removeBlock i).wf) ∧
    (findBlock L.block_map i = none →
      (L.allocateNewBlock i).inserted = true) ∧
    (∀ b, findBlock L.block_map i = some b →
      (L.allocateNewBlock i).layer = L ∧
      (L.allocateNewBlock i).inserted = false) := by
  refine ⟨fun hwf => ⟨?_, ?_⟩, ?_, ?_⟩
  · rcases hf : findBlock L.block_map i with _ | b
    · have hi : i ∉ L.block_map.map Prod.fst :=
        (findBlock_eq_none_iff L.block_map i).mp hf
      simp only [Layer.allocateBlockPtrByIndex, Layer.allocateNewBlock, hf]
      exact List.nodup_cons.mpr ⟨hi, hwf⟩
    · simpa [Layer.allocateBlockPtrByIndex, hf] using hwf
  · exact nodup_keys_eraseBlock L.block_map i hwf
  · intro h
    simp [Layer.allocateNewBlock, h]
  · intro b h
    simp [Layer.allocateNewBlock, h]

/-- C3 witness: on a layer already holding block `(0,0,0)`, the
invariant survives a second allocation at `(0,0,0)` and a removal, a
fresh allocation at an absent index passes the `DCHECK`, and a direct
double-allocation at `(0,0,0)` leaves the map unchanged with
`insert_status.second = false`. -/
theorem layer_at_most_one_block_per_index_witness :
    (((Layer.init 1 1).allocateBlockPtrByIndex
        (0, 0, 0)).2.allocateBlockPtrByIndex (0, 0, 0)).2.wf ∧
    (((Layer.init 1 1).allocateBlockPtrByIndex (0, 0, 0)).2.removeBlock
        (0, 0, 0)).wf ∧
    (((Layer.init 1 1).allocateBlockPtrByIndex
        (0, 0, 0)).2.allocateNewBlock (0, 0, 0)).layer =
      ((Layer.init 1 1).allocateBlockPtrByIndex (0, 0, 0)).2 ∧
    (((Layer.init 1 1).allocateBlockPtrByIndex
        (0, 0, 0)).2.allocateNewBlock (0, 0, 0)).inserted = false :=
  ⟨((layer_at_most_one_block_per_index
      ((Layer.init 1 1).allocateBlockPtrByIndex (0, 0, 0)).2 (0, 0, 0)).1
      (by simp [Layer.wf, Layer.init, Layer.allocateBlockPtrByIndex,
        Layer.allocateNewBlock, findBlock])).1,
    ((layer_at_most_one_block_per_index
      ((Layer.init 1 1).allocateBlockPtrByIndex (0, 0, 0)).2 (0, 0, 0)).1
      (by simp [Layer.wf, Layer.init, Layer.allocateBlockPtrByIndex,
        Layer.allocateNewBlock, findBlock])).2,
    ((layer_at_most_one_block_per_index
      ((Layer.init 1 1).allocateBlockPtrByIndex (0, 0, 0)).2
      (0, 0, 0)).2.2
      ((Layer.init 1 1).allocateBlockPtrByIndex (0, 0, 0)).1 rfl).1,
    ((layer_at_most_one_block_per_index
      ((Layer.init 1 1).allocateBlockPtrByIndex (0, 0, 0)).2
      (0, 0, 0)).2.2
      ((Layer.init 1 1).allocateBlockPtrByIndex (0, 0, 0)).1 rfl).2⟩

/-- C9: `removeBlock i` removes exactly the block stored at `i` when
present (the count drops by 1 and, under the key-uniqueness invariant,
`i` is no longer mapped), is a no-op when `i` is absent, and in both
cases leaves every other index's block and the layer's geometry
parameters unchanged. -/
theorem removeBlock_exact (L : Layer) (i : BlockIndex) :
    ((findBlock L.block_map i).isSome = true →
      (L.removeBlock i).getNumberOfAllocatedBlocks + 1 =
        L.getNumberOfAllocatedBlocks) ∧
    (findBlock L.block_map i = none → L.removeBlock i = L) ∧
    (∀ j, j ≠ i →
      findBlock (L.removeBlock i).block_map j = findBlock L.block_map j) ∧
    (L.wf → findBlock (L.removeBlock i).block_map i = none) ∧
    (L.removeBlock i).voxel_size = L.voxel_size ∧
    (L.removeBlock i).voxels_per_side = L.voxels_per_side ∧
    (L.removeBlock i).block_size = L.block_size ∧
    (L.removeBlock i).block_size_inv = L.block_size_inv := by
  refine ⟨?_, ?_, ?_, ?_, rfl, rfl, rfl, rfl⟩
  · intro h
    exact length_eraseBlock_of_present L.block_map i h
  · intro h
    cases L
    simp [Layer.removeBlock, eraseBlock_of_findBlock_none _ _ h]
  · intro j hj
    exact findBlock_eraseBlock_ne L.block_map i j hj
  · intro hwf
    exact findBlock_eraseBlock_self L.block_map i hwf

/-- C9 witness: on a layer holding exactly block `(0,0,0)`, removing
`(0,0,0)` drops the count from 1 to 0 and unmaps the index, while
removing the absent `(1,0,0)` leaves the layer identical. -/
theorem removeBlock_exact_witness :
    (((Layer.init 1 1).allocateBlockPtrByIndex (0, 0, 0)).2.removeBlock
        (0, 0, 0)).getNumberOfAllocatedBlocks + 1 =
      ((Layer.init 1 1).allocateBlockPtrByIndex
        (0, 0, 0)).2.getNumberOfAllocatedBlocks ∧
    ((Layer.init 1 1).allocateBlockPtrByIndex (0, 0, 0)).2.removeBlock
        (1, 0, 0) =
      ((Layer.init 1 1).allocateBlockPtrByIndex (0, 0, 0)).2 ∧
    findBlock (((Layer.init 1 1).allocateBlockPtrByIndex
        (0, 0, 0)).2.removeBlock (0, 0, 0)).block_map (0, 0, 0) = none :=
  ⟨(removeBlock_exact
      ((Layer.init 1 1).allocateBlockPtrByIndex (0, 0, 0)).2 (0, 0, 0)).1
      rfl,
    (removeBlock_exact
      ((Layer.init 1 1).allocateBlockPtrByIndex (0, 0, 0)).2
      (1, 0, 0)).2.1 rfl,
    (removeBlock_exact
      ((Layer.init 1 1).allocateBlockPtrByIndex (0, 0, 0)).2
      (0, 0, 0)).2.2.2.1
      (by simp [Layer.wf, Layer.init, Layer.allocateBlockPtrByIndex,
        Layer.allocateNewBlock, findBlock])⟩

/-- C10: every coordinate-based operation equals the corresponding
index-based operation precomposed with
`computeBlockIndexFromCoordinates`, so points mapping to the same
block index are interchangeable at the Layer interface. -/
theorem coordinate_ops_factor_through_index (L : Layer) (p : Point) :
    L.getBlockPtrByCoordinates p =
      L.getBlockPtrByIndex (L.computeBlockIndexFromCoordinates p) ∧
    L.allocateBlockPtrByCoordinates p =
      L.allocateBlockPtrByIndex (L.computeBlockIndexFromCoordinates p) ∧
    L.allocateNewBlockByCoordinates p =
      L.allocateNewBlock (L.computeBlockIndexFromCoordinates p) ∧
    L.removeBlockByCoordinates p =
      L.removeBlock (L.computeBlockIndexFromCoordinates p) :=
  ⟨rfl, rfl, rfl, rfl⟩

/-- C6 counterexample: with τ = 1, applying the observations `(3, 1)`
and `(-3, 1)` to a fresh voxel in the two orders ends at distance `-1`
versus `+1` — a discrepancy of 2, far beyond rounding, even in exact
arithmetic.  The intermediate clamp makes the rule order-dependent for
observations whose distance lies outside the truncation band. -/
theorem mergeRule_comm_counterexample :
    (updateTsdfVoxel 1 (updateTsdfVoxel 1 TsdfVoxel.default 3 1)
      (-3) 1).distance = -1 ∧
    (updateTsdfVoxel 1 (updateTsdfVoxel 1 TsdfVoxel.default (-3) 1)
      3 1).distance = 1 ∧
    updateTsdfVoxel 1 (updateTsdfVoxel 1 TsdfVoxel.default 3 1) (-3) 1 ≠
      updateTsdfVoxel 1 (updateTsdfVoxel 1 TsdfVoxel.default (-3) 1) 3 1 := by
  have h1 : (updateTsdfVoxel 1 (updateTsdfVoxel 1 TsdfVoxel.default 3 1)
      (-3) 1).distance = -1 := by
    norm_num [updateTsdfVoxel, clampQ, TsdfVoxel.default]
  have h2 : (updateTsdfVoxel 1 (updateTsdfVoxel 1 TsdfVoxel.default (-3) 1)
      3 1).distance = 1 := by
    norm_num [updateTsdfVoxel, clampQ, TsdfVoxel.default]
  refine ⟨h1, h2, fun h => ?_⟩
  rw [congrArg TsdfVoxel.distance h, h2] at h1
  norm_num at h1

/-- C6 (amended): for observations whose distances lie within the
truncation band (`|d₁| ≤ τ`, `|d₂| ≤ τ`, as the integrator produces by
clamping the signed distance to `±τ` before merging) with positive
weights, applying them to a fresh (default, zero-weight) voxel in
either order yields exactly the same final `(d, w)`, the final weight
equals `w₁ + w₂` exactly, and the weight is monotonically
non-decreasing under every merge with non-negative weight. -/
theorem mergeRule_commutative_in_band (τ d1 w1 d2 w2 : ℚ)
    (h1 : |d1| ≤ τ) (h2 : |d2| ≤ τ) (hw1 : 0 < w1) (hw2 : 0 < w2) :
    updateTsdfVoxel τ (updateTsdfVoxel τ TsdfVoxel.default d1 w1) d2 w2 =
      updateTsdfVoxel τ (updateTsdfVoxel τ TsdfVoxel.default d2 w2) d1 w1 ∧
    (updateTsdfVoxel τ (updateTsdfVoxel τ TsdfVoxel.default d1 w1) d2
      w2).weight = w1 + w2 ∧
    (∀ v : TsdfVoxel, ∀ d w : ℚ, 0 ≤ w →
      v.weight ≤ (updateTsdfVoxel τ v d w).weight) := by
  have hstep : ∀ d w : ℚ, |d| ≤ τ → 0 < w →
      updateTsdfVoxel τ TsdfVoxel.default d w = ⟨d, w⟩ := by
    intro d w hd hw
    obtain ⟨hl, hr⟩ := abs_le.mp hd
    simp only [updateTsdfVoxel, TsdfVoxel.default]
    congr 1
    · rw [zero_mul, zero_add, zero_add, mul_div_cancel_right₀ d hw.ne',
        clampQ, min_eq_left hr, max_eq_right hl]
    · exact zero_add w
  refine ⟨?_, ?_, ?_⟩
  · rw [hstep d1 w1 h1 hw1, hstep d2 w2 h2 hw2]
    simp only [updateTsdfVoxel]
    congr 1
    · rw [add_comm (d2 * w2) (d1 * w1), add_comm w2 w1]
    · exact add_comm w1 w2
  · rw [hstep d1 w1 h1 hw1]
    rfl
  · intro v d w hw
    show v.weight ≤ v.weight + w
    linarith

/-- C6 witness: in-band observations `(1/2, 1)` and `(-1/2, 2)` with
τ = 1 merge into a fresh voxel order-independently with final weight
exactly 3. -/
theorem mergeRule_commutative_in_band_witness :
    updateTsdfVoxel 1 (updateTsdfVoxel 1 TsdfVoxel.default (1/2) 1)
        (-1/2) 2 =
      updateTsdfVoxel 1 (updateTsdfVoxel 1 TsdfVoxel.default (-1/2) 2)
        (1/2) 1 ∧
    (updateTsdfVoxel 1 (updateTsdfVoxel 1 TsdfVoxel.default (1/2) 1)
      (-1/2) 2).weight = 1 + 2 :=
  ⟨(mergeRule_commutative_in_band 1 (1/2) 1 (-1/2) 2 (by norm_num [abs_le])
      (by norm_num [abs_le]) (by norm_num) (by norm_num)).1,
    (mergeRule_commutative_in_band 1 (1/2) 1 (-1/2) 2 (by norm_num [abs_le])
      (by norm_num [abs_le]) (by norm_num) (by norm_num)).2.1⟩

/-! ### Helper lemmas for the persistence codec -/

/-- First record with the given index in a list of block records. -/
def findProto : List BlockProto → BlockIndex → Option BlockProto
  | [], _ => none
  | r :: t, i => if r.index = i then some r else findProto t i

theorem findBlock_some_mem (m : BlockMap) (i : BlockIndex) (b : Block)
    (h : findBlock m i = some b) : (i, b) ∈ m := by
  induction m with
  | nil => simp [findBlock] at h
  | cons kv t ih =>
    obtain ⟨k, v⟩ := kv
    by_cases hk : k = i
    · subst hk
      rw [findBlock, if_pos rfl] at h
      obtain rfl : v = b := by injection h
      exact List.mem_cons_self _ _
    · rw [findBlock, if_neg hk] at h
      exact List.mem_cons_of_mem _ (ih h)

theorem findProto_eq_none_iff (rs : List BlockProto) (i : BlockIndex) :
    findProto rs i = none ↔ i ∉ rs.map BlockProto.index := by
  induction rs with
  | nil => simp [findProto]
  | cons r t ih =>
    by_cases h : r.index = i
    · subst h
      simp [findProto]
    · simp [findProto, h, ih, Ne.symm h]

theorem findProto_map_toProto (m : BlockMap) (i : BlockIndex) :
    findProto (m.map fun kv => ⟨kv.1, (kv.2).voxels⟩) i =
      (findBlock m i).map fun b => (⟨i, b.voxels⟩ : BlockProto) := by
  induction m with
  | nil => rfl
  | cons kv t ih =>
    obtain ⟨k, v⟩ := kv
    by_cases hk : k = i
    · subst hk
      simp [findProto, findBlock]
    · simp [findProto, findBlock, hk, ih]

theorem applyBlockProto_kReplace (L : Layer) (r : BlockProto) :
    applyBlockProto .kReplace L r =
      { L with
        block_map :=
          (r.index, blockFromProto L r) :: eraseBlock L.block_map r.index } :=
  rfl

theorem foldl_replace_geom (rs : List BlockProto) (A : Layer) :
    (rs.foldl (applyBlockProto .kReplace) A).voxel_size = A.voxel_size ∧
    (rs.foldl (applyBlockProto .kReplace) A).voxels_per_side =
      A.voxels_per_side ∧
    (rs.foldl (applyBlockProto .kReplace) A).block_size = A.block_size := by
  induction rs generalizing A with
  | nil => exact ⟨rfl, rfl, rfl⟩
  | cons r t ih => exact ih (applyBlockProto .kReplace A r)

theorem findBlock_foldl_replace (rs : List BlockProto) (A : Layer)
    (i : BlockIndex) (h : (rs.map BlockProto.index).Nodup) :
    findBlock (rs.foldl (applyBlockProto .kReplace) A).block_map i =
      (findProto rs i).elim (findBlock A.block_map i)
        (fun r => some (blockFromProto A r)) := by
  induction rs generalizing A with
  | nil => rfl
  | cons r t ih =>
    simp only [List.map_cons, List.nodup_cons] at h
    obtain ⟨hr, ht⟩ := h
    show findBlock (t.foldl (applyBlockProto .kReplace)
      (applyBlockProto .kReplace A r)).block_map i = _
    rw [ih (applyBlockProto .kReplace A r) ht]
    by_cases hi : r.index = i
    · subst hi
      have hnone : findProto t r.index = none :=
        (findProto_eq_none_iff t r.index).mpr hr
      rw [hnone]
      show findBlock ((r.index, blockFromProto A r) ::
        eraseBlock A.block_map r.index) r.index =
        (findProto (r :: t) r.index).elim _ _
      rw [findBlock, if_pos rfl, findProto, if_pos rfl]
      rfl
    · show (findProto t i).elim (findBlock ((r.index, blockFromProto A r) ::
        eraseBlock A.block_map r.index) i) _ =
        (findProto (r :: t) i).elim (findBlock A.block_map i) _
      rw [findProto, if_neg hi]
      cases hf : findProto t i with
      | some r' => rfl
      | none =>
        show findBlock ((r.index, blockFromProto A r) ::
          eraseBlock A.block_map r.index) i = findBlock A.block_map i
        rw [findBlock, if_neg hi,
          findBlock_eraseBlock_ne A.block_map r.index i
            (fun hc => hi hc.symm)]

theorem length_foldl_replace (rs : List BlockProto) (A : Layer)
    (habsent : ∀ r ∈ rs, findBlock A.block_map r.index = none)
    (h : (rs.map BlockProto.index).Nodup) :
    (rs.foldl (applyBlockProto .kReplace) A).block_map.length =
      A.block_map.length + rs.length := by
  induction rs generalizing A with
  | nil => rfl
  | cons r t ih =>
    simp only [List.map_cons, List.nodup_cons] at h
    obtain ⟨hr, ht⟩ := h
    have h1 : findBlock A.block_map r.index = none :=
      habsent r (List.mem_cons_self _ _)
    have h2 : ∀ r' ∈ t, findBlock
        (applyBlockProto .kReplace A r).block_map r'.index = none := by
      intro r' hr'
      have hne : r.index ≠ r'.index := by
        intro hc
        exact hr (hc ▸ List.mem_map_of_mem BlockProto.index hr')
      show findBlock ((r.index, blockFromProto A r) ::
        eraseBlock A.block_map r.index) r'.index = none
      rw [findBlock, if_neg hne,
        findBlock_eraseBlock_ne A.block_map r.index r'.index hne.symm]
      exact habsent r' (List.mem_cons_of_mem _ hr')
    show (t.foldl (applyBlockProto .kReplace)
      (applyBlockProto .kReplace A r)).block_map.length = _
    rw [ih (applyBlockProto .kReplace A r) h2 ht]
    show ((r.index, blockFromProto A r) ::
      eraseBlock A.block_map r.index).length + t.length = _
    rw [eraseBlock_of_findBlock_none A.block_map r.index h1]
    simp only [List.length_cons, List.length_map]
    omega

/-- C7: persistence round-trips: encoding a Layer (`getProto`) and
decoding the encoding into a fresh empty Layer of matching geometry
under the Replace policy succeeds and yields a Layer whose block map is
extensionally identical to the source (same blocks at the same
indices, voxel contents included), with the same block count and
geometry. -/
theorem persistence_roundtrip_replace (L : Layer) (hwf : L.wf)
    (hgeom : L.wfGeom) :
    ∃ L', (Layer.init L.voxel_size L.voxels_per_side).loadBlocksProto
        L.getProto .kReplace = some L' ∧
      (∀ i, findBlock L'.block_map i = findBlock L.block_map i) ∧
      L'.getNumberOfAllocatedBlocks = L.getNumberOfAllocatedBlocks ∧
      L'.voxel_size = L.voxel_size ∧
      L'.voxels_per_side = L.voxels_per_side := by
  set fresh := Layer.init L.voxel_size L.voxels_per_side with hfresh
  set rs := L.getProto.blocks with hrs
  have hkeys : rs.map BlockProto.index = L.block_map.map Prod.fst := by
    rw [hrs]
    show (L.block_map.map fun kv => (⟨kv.1, (kv.2).voxels⟩ : BlockProto)).map
      BlockProto.index = _
    rw [List.map_map]
    rfl
  have hnodup : (rs.map BlockProto.index).Nodup := by
    rw [hkeys]; exact hwf
  have hcompat : fresh.isCompatible L.getProto = true := by
    simp [Layer.isCompatible, hfresh, Layer.init, Layer.getProto]
  have hload : fresh.loadBlocksProto L.getProto .kReplace =
      some (rs.foldl (applyBlockProto .kReplace) fresh) := by
    simp [Layer.loadBlocksProto, hcompat]
  refine ⟨rs.foldl (applyBlockProto .kReplace) fresh, hload, ?_, ?_, ?_, ?_⟩
  · intro i
    rw [findBlock_foldl_replace rs fresh i hnodup]
    have hfp : findProto rs i =
        (findBlock L.block_map i).map fun b =>
          (⟨i, b.voxels⟩ : BlockProto) := by
      rw [hrs]
      exact findProto_map_toProto L.block_map i
    rw [hfp]
    cases hb : findBlock L.block_map i with
    | none => rfl
    | some b =>
      obtain ⟨hn, hvs, hor⟩ :=
        hgeom.2 (i, b) (findBlock_some_mem L.block_map i b hb)
      show some (blockFromProto fresh ⟨i, b.voxels⟩) = some b
      have hbs : fresh.block_size = L.block_size := by
        rw [hgeom.1]; rfl
      cases b with
      | mk bn bvs bor bvoxels =>
        simp only [blockFromProto] at *
        rw [hbs, hn, hvs, hor]
        rfl
  · show (rs.foldl (applyBlockProto .kReplace) fresh).block_map.length =
      L.block_map.length
    rw [length_foldl_replace rs fresh (fun r _ => rfl) hnodup]
    rw [hrs]
    show 0 + (L.block_map.map fun kv =>
      (⟨kv.1, (kv.2).voxels⟩ : BlockProto)).length = _
    rw [List.length_map, Nat.zero_add]
  · exact (foldl_replace_geom rs fresh).1
  · exact (foldl_replace_geom rs fresh).2.1

/-- C7 witness: a layer with one allocated block at `(0,0,0)` (voxel
size 1, 1 voxel per side) round-trips bit-identically through the
codec under the Replace policy. -/
theorem persistence_roundtrip_replace_witness :
    ∃ L', (Layer.init ((Layer.init 1 1).allocateBlockPtrByIndex
          (0, 0, 0)).2.voxel_size
        ((Layer.init 1 1).allocateBlockPtrByIndex
          (0, 0, 0)).2.voxels_per_side).loadBlocksProto
        ((Layer.init 1 1).allocateBlockPtrByIndex (0, 0, 0)).2.getProto
        .kReplace = some L' ∧
      (∀ i, findBlock L'.block_map i =
        findBlock ((Layer.init 1 1).allocateBlockPtrByIndex
          (0, 0, 0)).2.block_map i) ∧
      L'.getNumberOfAllocatedBlocks =
        ((Layer.init 1 1).allocateBlockPtrByIndex
          (0, 0, 0)).2.getNumberOfAllocatedBlocks ∧
      L'.voxel_size = ((Layer.init 1 1).allocateBlockPtrByIndex
        (0, 0, 0)).2.voxel_size ∧
      L'.voxels_per_side = ((Layer.init 1 1).allocateBlockPtrByIndex
        (0, 0, 0)).2.voxels_per_side :=
  persistence_roundtrip_replace
    ((Layer.init 1 1).allocateBlockPtrByIndex (0, 0, 0)).2
    (by simp [Layer.wf, Layer.init, Layer.allocateBlockPtrByIndex,
      Layer.allocateNewBlock, findBlock])
    (by
      constructor
      · rfl
      · intro kv hkv
        simp only [Layer.allocateBlockPtrByIndex, Layer.allocateNewBlock,
          Layer.init, findBlock, List.mem_singleton] at hkv
        subst hkv
        exact ⟨rfl, rfl, rfl⟩)

/-- C8: loading persisted blocks under the Prohibit merge policy is
atomic: whenever any incoming block index collides with a block
already present in the target Layer, the whole load fails (`none`) and
— the model being purely functional — no part of the encoding is
applied to the target. -/
theorem loadBlocks_kProhibit_atomic (L : Layer) (proto : LayerProto)
    (h : ∃ r ∈ proto.blocks,
      (findBlock L.block_map r.index).isSome = true) :
    L.loadBlocksProto proto .kProhibit = none := by
  have hany : proto.blocks.any
      (fun r => (findBlock L.block_map r.index).isSome) = true :=
    List.any_eq_true.mpr h
  by_cases hc : L.isCompatible proto = false
  · simp [Layer.loadBlocksProto, hc]
  · simp [Layer.loadBlocksProto, hc, hany]

/-- C8 witness: a target layer holding a block at `(2,0,0)` refuses a
Prohibit-policy load of an encoding that contains the same index. -/
theorem loadBlocks_kProhibit_atomic_witness :
    ((Layer.init 1 1).allocateBlockPtrByIndex (2, 0, 0)).2.loadBlocksProto
      ⟨1, 1, [⟨(2, 0, 0), []⟩]⟩ .kProhibit = none :=
  loadBlocks_kProhibit_atomic
    ((Layer.init 1 1).allocateBlockPtrByIndex (2, 0, 0)).2
    ⟨1, 1, [⟨(2, 0, 0), []⟩]⟩
    ⟨⟨(2, 0, 0), []⟩, List.mem_singleton.mpr rfl, rfl⟩

end Voxblox
